import Mathlib

/-!
Shallow embedding of the OpenAPI client generator in
`src/agentr/utils/openapi.py`, together with proofs about the behaviour of
the generated methods, the generated tool manifest, the parameter merge,
the identifier sanitizer, the schema loader and the base-URL derivation.
-/

namespace Agentr

/-- Python single-character `str.replace`, as used for sanitizing names
(`s.replace('.', '_')`, `s.replace('-', '_')` in `generate_method_code`). -/
def pyReplaceChar (s : String) (a b : Char) : String :=
  ⟨s.data.map fun c => if c = a then b else c⟩

/-- Python `str.rstrip('/')`-style stripping: remove all trailing
occurrences of `c` (`servers[0]['url'].rstrip('/')` in
`generate_api_client`). -/
def pyRstrip (s : String) (c : Char) : String :=
  ⟨(s.data.reverse.dropWhile (fun d => d = c)).reverse⟩

/-- Python `str.lower`, restricted to the ASCII casing the generator
applies to file suffixes and HTTP verbs. -/
def pyLower (s : String) : String :=
  ⟨s.data.map Char.toLower⟩

/-- Truthiness of an optional string, as Python evaluates `p.get('name')`
in a boolean context: `None` and the empty string are falsy. -/
def pyTruthyStr : Option String → Bool
  | none => false
  | some s => s != ""

/-- Model of the Python runtime values that flow through a generated
method: strings, integers and booleans are enough for every claim. -/
inductive Value where
  | vStr (s : String)
  | vInt (n : Int)
  | vBool (b : Bool)
deriving DecidableEq

/-- Python `str()` on a value, as applied by `str.format_map` when a path
parameter is substituted into the URL template. -/
def pyStrOfValue : Value → String
  | .vStr s => s
  | .vInt n => toString n
  | .vBool b => if b then "True" else "False"

/-- Python `str()` on a possibly missing value; `str(None)` is `"None"`. -/
def pyStrOfOpt : Option Value → String
  | none => "None"
  | some v => pyStrOfValue v

/-!
Injectivity of the decimal printer `Nat.repr`.  The argument-name
disambiguation loop of the generator appends `str(counter)` to a base
name, so distinctness of the produced candidates reduces to injectivity
of decimal printing, which we derive from `Nat.digits`.
-/

/-- Decimal character list produced by `Nat.toDigitsCore`, expressed
through `Nat.digits`. -/
lemma toDigitsCore_eq_digits :
    ∀ (fuel n : Nat), n < fuel → ∀ (ds : List Char),
      Nat.toDigitsCore 10 fuel n ds =
        (if n = 0 then ['0']
         else ((Nat.digits 10 n).map Nat.digitChar).reverse) ++ ds := by
  intro fuel
  induction fuel with
  | zero => intro n h; omega
  | succ fuel ih =>
    intro n h ds
    rw [Nat.toDigitsCore]
    by_cases hdiv : n / 10 = 0
    · have hn10 : n < 10 := by omega
      simp only [hdiv, if_pos]
      by_cases hn : n = 0
      · subst hn; simp; decide
      · have : Nat.digits 10 n = [n] :=
          Nat.digits_of_lt 10 n hn hn10
        simp [hn, this, Nat.mod_eq_of_lt hn10]
    · have hn0 : n ≠ 0 := by omega
      have hock : n / 10 < fuel := by
        have := Nat.div_lt_self (Nat.pos_of_ne_zero hn0) (by omega : 1 < 10)
        omega
      simp only [hdiv, if_neg, if_false]
      rw [ih (n / 10) hock]
      rw [Nat.digits_def' (by omega : 1 < 10) (Nat.pos_of_ne_zero hn0)]
      simp [hdiv, hn0, List.append_assoc]

/-- The logical definition of `Nat.repr`, through `Nat.digits`. -/
lemma nat_repr_eq (n : Nat) :
    Nat.repr n =
      (if n = 0 then ['0']
       else ((Nat.digits 10 n).map Nat.digitChar).reverse).asString := by
  show (Nat.toDigits 10 n).asString = _
  rw [Nat.toDigits, toDigitsCore_eq_digits (n + 1) n (Nat.lt_succ_self n) [],
    List.append_nil]

/-- Injectivity of the digit-to-character table below the base. -/
lemma digitChar_inj_lt :
    ∀ a, a < 10 → ∀ b, b < 10 → Nat.digitChar a = Nat.digitChar b → a = b := by
  decide

/-- The `List Char → String` bundling is injective. -/
lemma asString_inj {l₁ l₂ : List Char} (h : l₁.asString = l₂.asString) :
    l₁ = l₂ := by
  simpa [List.asString] using congrArg String.data h

/-- Mapping `Nat.digitChar` over lists of digits below the base is
injective. -/
lemma map_digitChar_inj :
    ∀ (l₁ l₂ : List Nat), (∀ d ∈ l₁, d < 10) → (∀ d ∈ l₂, d < 10) →
      l₁.map Nat.digitChar = l₂.map Nat.digitChar → l₁ = l₂ := by
  intro l₁
  induction l₁ with
  | nil => intro l₂ _ _ h; cases l₂ <;> simp_all
  | cons a t ih =>
    intro l₂ h₁ h₂ h
    cases l₂ with
    | nil => simp_all
    | cons b t₂ =>
      simp only [List.map_cons, List.cons.injEq] at h
      have ha : a = b :=
        digitChar_inj_lt a (h₁ a (by simp)) b (h₂ b (by simp)) h.1
      have ht : t = t₂ :=
        ih t₂ (fun d hd => h₁ d (by simp [hd])) (fun d hd => h₂ d (by simp [hd])) h.2
      simp [ha, ht]

/-- Decimal printing of naturals is injective. -/
lemma nat_repr_injective {m n : Nat} (h : Nat.repr m = Nat.repr n) : m = n := by
  rw [nat_repr_eq, nat_repr_eq] at h
  have h' := asString_inj h
  by_cases hm : m = 0 <;> by_cases hn : n = 0
  · omega
  · exfalso
    simp only [hm, if_pos, hn, if_neg, if_false] at h'
    have hmap : (Nat.digits 10 n).map Nat.digitChar = ['0'] := by
      have := congrArg List.reverse h'
      simpa using this.symm
    have hdig : Nat.digits 10 n = [0] := by
      refine map_digitChar_inj _ _ ?_ (by simp) hmap
      intro d hd; exact Nat.digits_lt_base (by omega) hd
    have : n = 0 := by
      have := Nat.ofDigits_digits 10 n
      rw [hdig] at this
      simpa [Nat.ofDigits] using this.symm
    exact hn this
  · exfalso
    simp only [hn, if_pos, hm, if_neg, if_false] at h'
    have hmap : (Nat.digits 10 m).map Nat.digitChar = ['0'] := by
      have := congrArg List.reverse h'
      simpa using this
    have hdig : Nat.digits 10 m = [0] := by
      refine map_digitChar_inj _ _ ?_ (by simp) hmap
      intro d hd; exact Nat.digits_lt_base (by omega) hd
    have : m = 0 := by
      have := Nat.ofDigits_digits 10 m
      rw [hdig] at this
      simpa [Nat.ofDigits] using this.symm
    exact hm this
  · simp only [hm, hn, if_neg, if_false] at h'
    have hmap : (Nat.digits 10 m).map Nat.digitChar =
        (Nat.digits 10 n).map Nat.digitChar := by
      have := congrArg List.reverse h'
      simpa using this
    have hdig : Nat.digits 10 m = Nat.digits 10 n := by
      refine map_digitChar_inj _ _ ?_ ?_ hmap <;>
        (intro d hd; exact Nat.digits_lt_base (by omega) hd)
    calc m = Nat.ofDigits 10 (Nat.digits 10 m) := (Nat.ofDigits_digits 10 m).symm
    _ = Nat.ofDigits 10 (Nat.digits 10 n) := by rw [hdig]
    _ = n := Nat.ofDigits_digits 10 n

/-- Decimal printing never yields the empty string. -/
lemma nat_repr_ne_empty (n : Nat) : Nat.repr n ≠ "" := by
  rw [nat_repr_eq]
  intro h
  have h' : (if n = 0 then ['0']
      else ((Nat.digits 10 n).map Nat.digitChar).reverse) = [] := by
    have : ([] : List Char).asString = "" := rfl
    exact asString_inj (by rw [h, this])
  by_cases hn : n = 0
  · simp [hn] at h'
  · simp only [hn, if_neg, if_false] at h'
    rw [List.reverse_eq_nil_iff, List.map_eq_nil_iff] at h'
    exact (Nat.digits_ne_nil_iff_ne_zero.mpr hn) h'

/-- Left cancellation for string append, used to separate a common base
name from decimal counter suffixes. -/
lemma string_append_left_cancel {a x y : String} (h : a ++ x = a ++ y) :
    x = y := by
  have hd := congrArg String.data h
  simp only [String.data_append] at hd
  exact congrArg String.mk (List.append_cancel_left hd)

/-!
Python dictionaries are modelled as association lists with the CPython
insertion semantics: assigning to an existing key replaces the value in
place and keeps the key's position, assigning to a fresh key appends.
-/

/-- Python dict assignment `d[k] = v`. -/
def dictInsert {α β : Type} [DecidableEq α] (k : α) (v : β) :
    List (α × β) → List (α × β)
  | [] => [(k, v)]
  | e :: rest => if e.1 = k then (k, v) :: rest else e :: dictInsert k v rest

/-- Python dict lookup `d.get(k)`. -/
def dictGet? {α β : Type} [DecidableEq α] (k : α) : List (α × β) → Option β
  | [] => none
  | e :: rest => if e.1 = k then some e.2 else dictGet? k rest

/-- The key list of a modelled dict, in insertion order. -/
def dictKeys {α β : Type} (d : List (α × β)) : List α := d.map Prod.fst

/-!
Data model of the schema fragments the generator reads.  Optional fields
mirror Python's `dict.get` accesses on the raw schema dictionaries.
-/

/-- The `schema` object of a parameter, of which the generator only reads
`type` (`param_schema.get('type')`). -/
structure ParamSchema where
  type : Option String
deriving DecidableEq

/-- A raw OpenAPI parameter object, as consumed by `generate_api_client`
and `generate_method_code`. -/
structure Param where
  name : Option String
  param_in : Option String
  required : Option Bool
  description : Option String
  schema : Option ParamSchema
deriving DecidableEq

/-- A media type entry of a request body's `content` mapping. -/
structure MediaTypeObject where
  schema : Option ParamSchema
deriving DecidableEq

/-- A raw `requestBody` object: `required` flag plus `content` mapping. -/
structure RequestBody where
  required : Option Bool
  content : List (String × MediaTypeObject)
deriving DecidableEq

/-- A raw operation object, restricted to the fields the generator reads. -/
structure Operation where
  operationId : Option String
  summary : Option String
  description : Option String
  parameters : List Param
  requestBody : Option RequestBody
deriving DecidableEq

/-- A `servers[]` entry; `url` is `some` exactly when the `'url'` key is
present in the server dictionary. -/
structure Server where
  url : Option String
deriving DecidableEq

/-- The resolved description of one argument of a generated method: entry
of `final_param_defs` in `generate_method_code`. -/
structure ParamDef where
  name : String
  arg_name : String
  param_in : String
  required : Bool
  description : String
  schemaType : Option String
  py_type : String
deriving DecidableEq

/-- The `openapi_type_to_python` mapping from OpenAPI `type` strings to
Python type hints. -/
def openapi_type_to_python (t : String) : String :=
  if t = "string" then "str"
  else if t = "integer" then "int"
  else if t = "number" then "float"
  else if t = "boolean" then "bool"
  else if t = "array" then "List"
  else if t = "object" then "Dict[str, Any]"
  else "Any"

/-- Function-name derivation from a raw `operationId`
(`operation['operationId'].replace('.', '_').replace('-', '_')` in
`generate_method_code`). -/
def funcNameOfOperationId (s : String) : String :=
  pyReplaceChar (pyReplaceChar s '.' '_') '-' '_'

/-- Validity filter applied to raw parameters: Python's
`if p.get('name') and p.get('in')` truthiness test; parameters failing it
are skipped with a warning. -/
def paramValid (p : Param) : Bool :=
  pyTruthyStr p.name && pyTruthyStr p.param_in

/-- The `(name, in)` identity of a parameter, the key of the override
dictionary `combined_params_map` in `generate_api_client`. -/
def paramKey (p : Param) : Option String × Option String :=
  (p.name, p.param_in)

/-- The path-level/operation-level parameter merge of
`generate_api_client`: a dict keyed by `(name, in)` is built from the
path-level list and then updated with the operation-level list; the merged
parameter list is the dict's value list. -/
def mergeParams (pathLevel opLevel : List Param) : List Param :=
  let m1 := (pathLevel.filter paramValid).foldl
    (fun d p => dictInsert (paramKey p) p d) []
  let m2 := (opLevel.filter paramValid).foldl
    (fun d p => dictInsert (paramKey p) p d) m1
  m2.map Prod.snd

/-- The `while unique_arg_name in assigned_arg_names` collision loop: keep
appending `str(counter)` (counter starting at 2) to the location-suffixed
base name until the candidate is unassigned.  The Python loop is unbounded;
the fuel passed by `uniqueArgName` is large enough that it never runs out. -/
def whileNameLoop : Nat → List String → String → String → Nat → String
  | 0, _, _, cand, _ => cand
  | fuel + 1, assigned, base, cand, counter =>
    if cand ∈ assigned then
      whileNameLoop fuel assigned base (base ++ Nat.repr counter) (counter + 1)
    else cand

/-- Unique-argument-name resolution of `generate_method_code`: keep the
initial name if free, else suffix `_<location>` and, while still taken,
an incrementing counter. -/
def uniqueArgName (assigned : List String) (initialArg paramIn : String) :
    String :=
  if initialArg ∈ assigned then
    let base := initialArg ++ "_" ++ paramIn
    whileNameLoop (assigned.length + 2) assigned base base 2
  else initialArg

/-- The parameter-processing loop of `generate_method_code`: skip invalid
parameters, compute the unique argument name against the set of already
assigned names, and record the final definition. -/
def buildParamDefs : List Param → List String → List ParamDef
  | [], _ => []
  | p :: rest, assigned =>
    if paramValid p then
      let param_name := p.name.getD ""
      let pin := p.param_in.getD ""
      let initial_arg_name := pyReplaceChar param_name '-' '_'
      let unique_arg_name := uniqueArgName assigned initial_arg_name pin
      let sType := (p.schema.getD ⟨none⟩).type
      { name := param_name
        arg_name := unique_arg_name
        param_in := pin
        required := p.required.getD false
        description := p.description.getD ""
        schemaType := sType
        py_type := openapi_type_to_python (sType.getD "Any") } ::
        buildParamDefs rest (unique_arg_name :: assigned)
    else buildParamDefs rest assigned

/-- The `final_param_defs` list computed by `generate_method_code` for a
combined parameter list. -/
def computeParamDefs (parameters : List Param) : List ParamDef :=
  buildParamDefs parameters []

/-- The `while body_arg_name in assigned_arg_names` loop of
`generate_method_code`: prefix underscores until the body argument name is
unassigned.  Fuel is supplied by `computeBodyArgName` and never runs out. -/
def bodyNameLoop : Nat → List String → String → String
  | 0, _, nm => nm
  | fuel + 1, assigned, nm =>
    if nm ∈ assigned then bodyNameLoop fuel assigned ("_" ++ nm) else nm

/-- The resolved request-body argument name: `request_body`, underscore
prefixed while it collides with an assigned argument name. -/
def computeBodyArgName (assigned : List String) : String :=
  bodyNameLoop (assigned.length + 1) assigned "request_body"

/-- The complete list of Python argument names of a generated method:
parameter argument names in order, then the body argument when the
operation declares a request body. -/
def methodArgNames (parameters : List Param) (hasBody : Bool) : List String :=
  let names := (computeParamDefs parameters).map (fun p => p.arg_name)
  if hasBody then names ++ [computeBodyArgName names] else names

/-- Errors raised by a generated method at call time. -/
inductive CallError where
  | valueError (msg : String)
  | keyError (k : String)
  | formatError
deriving DecidableEq

/-- Reads the placeholder name following an opening brace: the characters
up to the matching closing brace, plus the remaining input. -/
def splitBraceName : List Char → Option (List Char × List Char)
  | [] => none
  | c :: cs =>
    if c = '\x7d' then some ([], cs)
    else
      match splitBraceName cs with
      | none => none
      | some (nm, rest) => some (c :: nm, rest)

/-- Remainder returned by `splitBraceName` is no longer than the input. -/
lemma splitBraceName_length :
    ∀ (cs nm rest : List Char), splitBraceName cs = some (nm, rest) →
      rest.length ≤ cs.length := by
  intro cs
  induction cs with
  | nil => intro nm rest h; simp [splitBraceName] at h
  | cons c cs ih =>
    intro nm rest h
    rw [splitBraceName] at h
    by_cases hc : c = '\x7d'
    · simp only [hc, if_pos] at h
      cases h with
      | refl => simp
    · simp only [hc, if_neg, if_false] at h
      cases hsp : splitBraceName cs with
      | none => rw [hsp] at h; cases h
      | some pr =>
        rw [hsp] at h
        cases pr with
        | mk nm' rest' =>
          simp only at h
          cases h with
          | refl =>
            have := ih nm' rest hsp
            simp; omega

/-- Character-level model of Python's `str.format_map` restricted to plain
`\x7bname\x7d` placeholders (the only form occurring in OpenAPI path
templates): a placeholder is replaced by the dict entry for its name, a
missing name raises `KeyError`, an unmatched brace raises a format error.
The fuel is the input length, which suffices. -/
def formatMapAux (dict : List (String × String)) :
    Nat → List Char → Except CallError (List Char)
  | 0, [] => .ok []
  | 0, _ :: _ => .error .formatError
  | _ + 1, [] => .ok []
  | fuel + 1, c :: cs =>
    if c = '\x7b' then
      match splitBraceName cs with
      | none => .error .formatError
      | some (nm, rest) =>
        match dictGet? (String.mk nm) dict with
        | none => .error (.keyError (String.mk nm))
        | some v => (formatMapAux dict fuel rest).map (fun tail => v.data ++ tail)
    else if c = '\x7d' then .error .formatError
    else (formatMapAux dict fuel cs).map (fun tail => c :: tail)

/-- Python `template.format_map(dict)` on the URL template. -/
def pyFormatMap (tmpl : String) (dict : List (String × String)) :
    Except CallError String :=
  (formatMapAux dict tmpl.data.length tmpl.data).map String.mk

/-- The HTTP request issued by a generated method, i.e. the arguments of
the `self._<verb>(url, params=query_params, headers=header_params[,
json=json_body])` call it performs. -/
structure Request where
  url : String
  http_verb : String
  query_params : List (String × Value)
  header_params : List (String × Value)
  json_body : Option Value
deriving DecidableEq

/-- First generated `if <arg> is None: raise ValueError(...)` check that
fires: the first required parameter whose argument value is absent. -/
def requiredCheck (defs : List ParamDef) (argv : String → Option Value) :
    Option ParamDef :=
  defs.find? (fun p => p.required && (argv p.arg_name).isNone)

/-- The `path_params` dict built by a generated method: wire name to the
stringified argument value, for every path-location parameter. -/
def buildPathMap (defs : List ParamDef) (argv : String → Option Value) :
    List (String × String) :=
  (defs.filter (fun p => p.param_in == "path")).foldl
    (fun d p => dictInsert p.name (pyStrOfOpt (argv p.arg_name)) d) []

/-- The `query_params`/`header_params` dict built by a generated method for
a location: wire name to argument value, dropping entries whose value is
`None` (`if v is not None`). -/
def buildParamMap (loc : String) (defs : List ParamDef)
    (argv : String → Option Value) : List (String × Value) :=
  (defs.filter (fun p => p.param_in == loc)).foldl
    (fun d p =>
      match argv p.arg_name with
      | some v => dictInsert p.name v d
      | none => d) []

/-- Call-time semantics of the method emitted by `generate_method_code` for
one operation: run the generated required-argument checks in order, build
the URL by substituting path parameters into the template, build the query
and header maps, and issue the request, passing the body argument as the
`json=` payload when the operation declares a request body. -/
def runMethod (path method : String) (op : Operation)
    (parameters : List Param) (api_base_url : String)
    (argv : String → Option Value) : Except CallError Request :=
  let defs := computeParamDefs parameters
  let has_body := op.requestBody.isSome
  let body_required :=
    has_body && (match op.requestBody with
                 | some rb => rb.required.getD false
                 | none => false)
  let body_arg_name := computeBodyArgName (defs.map (fun p => p.arg_name))
  match requiredCheck defs argv with
  | some p =>
    .error (.valueError ("Missing required " ++ p.param_in ++ " parameter: "
      ++ p.arg_name ++ " (original: " ++ p.name ++ ")"))
  | none =>
    if body_required && (argv body_arg_name).isNone then
      .error (.valueError "Missing required request body")
    else
      match pyFormatMap (api_base_url ++ path) (buildPathMap defs argv) with
      | .error e => .error e
      | .ok url =>
        .ok { url := url
              http_verb := pyLower method
              query_params := buildParamMap "query" defs argv
              header_params := buildParamMap "header" defs argv
              json_body := if has_body then argv body_arg_name else none }

/-- One property entry of the manifest `parameters.properties` dict.  For
parameter entries the code emits `description` and `type`; for the request
body it emits a literal empty dict (the braces in
`generate_tool_definition` contain only comments), so both fields are
absent. -/
structure ToolProp where
  description : Option String
  type : Option String
deriving DecidableEq

/-- The manifest `parameters` JSON-schema object; `required` is `none`
exactly when the (empty) list was deleted from the dict. -/
structure ToolParams where
  type : String
  properties : List (String × ToolProp)
  required : Option (List String)
deriving DecidableEq

/-- One entry of the generated `list_tools` manifest.  `name` and
`description` model the presence of those keys in the emitted dict. -/
structure ToolDefinition where
  name : Option String
  description : Option String
  parameters : ToolParams
deriving DecidableEq

/-- The manifest `type` for a parameter: `integer` becomes `number`, other
unknown types fall back to `string`. -/
def toolTypeOf (schemaType : Option String) : String :=
  let param_type := schemaType.getD "string"
  if param_type = "integer" then "number"
  else if param_type = "string" ∨ param_type = "number" ∨
      param_type = "boolean" ∨ param_type = "array" ∨ param_type = "object"
    then param_type
  else "string"

/-- Embedding of `generate_tool_definition`: build the `properties` dict
keyed by resolved argument names, collect required argument names, add a
`request_body` entry (empty schema, literal key) when the operation has a
request body, delete the `required` list when empty, and return a dict
that carries only the `parameters` key (the `name` and `description`
entries are left as comments in the source). -/
def generate_tool_definition (func_name : String) (op : Operation)
    (final_param_defs : List ParamDef) : Option ToolDefinition :=
  if func_name = "" then none
  else
    let props := final_param_defs.foldl
      (fun d pd =>
        dictInsert pd.arg_name
          { description := some pd.description
            type := some (toolTypeOf pd.schemaType) } d) []
    let reqs := (final_param_defs.filter (fun p => p.required)).map
      (fun p => p.arg_name)
    let props2 :=
      match op.requestBody with
      | some _ => dictInsert "request_body"
          { description := none, type := none } props
      | none => props
    let reqs2 :=
      match op.requestBody with
      | some rb => if rb.required.getD false then reqs ++ ["request_body"]
          else reqs
      | none => reqs
    some { name := none
           description := none
           parameters :=
             { type := "object"
               properties := props2
               required := if reqs2.isEmpty then none else some reqs2 } }

/-- Base-URL extraction of `generate_api_client`: first server entry's
`url`, right-stripped of trailing slashes; a placeholder plus a printed
warning (the boolean) when no usable server entry exists. -/
def extractBaseUrl (servers : List Server) : String × Bool :=
  match servers with
  | [] => ("\x7bYOUR_API_BASE_URL\x7d", true)
  | s :: _ =>
    match s.url with
    | some u => (pyRstrip u '/', false)
    | none => ("\x7bYOUR_API_BASE_URL\x7d", true)

/-- Construction-time base-URL resolution of the generated `__init__`:
`self.api_base_url = api_base_url or '<schema-derived>'`, where Python's
`or` falls through on `None` and on the empty string. -/
def resolveBaseUrl (override : Option String) (schemaDerived : String) :
    String :=
  match override with
  | some s => if s = "" then schemaDerived else s
  | none => schemaDerived

/-- Errors raised by `load_schema`, carrying the exact message strings the
source formats. -/
inductive LoadError where
  | fileNotFoundError (msg : String)
  | valueError (msg : String)
deriving DecidableEq

/-- The filesystem view `load_schema` has of its argument: the path string
(for messages), the path's suffix, whether `path.is_file()` holds, and the
file content. -/
structure PyPath where
  pathStr : String
  suffix : String
  isFile : Bool
  content : String
deriving DecidableEq

/-- Embedding of `load_schema`, parameterized by the external YAML and
JSON parsers: missing file raises `FileNotFoundError`; the lower-cased
suffix dispatches to a parser or raises the unsupported-type `ValueError`;
a parser failure is wrapped, together with the source path, in a
`ValueError`.  The model is pure: the only effect of the source is the
read, which the `content` field represents. -/
def load_schema {α : Type} (yamlLoad jsonLoad : String → Except String α)
    (p : PyPath) : Except LoadError α :=
  if !p.isFile then
    .error (.fileNotFoundError ("Schema file not found: " ++ p.pathStr))
  else
    let suffix := pyLower p.suffix
    if suffix = ".yaml" ∨ suffix = ".yml" then
      match yamlLoad p.content with
      | .ok t => .ok t
      | .error e =>
        .error (.valueError ("Error parsing schema file " ++ p.pathStr
          ++ ": " ++ e))
    else if suffix = ".json" then
      match jsonLoad p.content with
      | .ok t => .ok t
      | .error e =>
        .error (.valueError ("Error parsing schema file " ++ p.pathStr
          ++ ": " ++ e))
    else
      .error (.valueError ("Unsupported schema file type: " ++ suffix
        ++ ". Use .yaml or .json."))

/-- The sequence of candidate names probed by `whileNameLoop`. -/
def candList (base : String) : Nat → String → Nat → List String
  | 0, _, _ => []
  | fuel + 1, cand, counter =>
    cand :: candList base fuel (base ++ Nat.repr counter) (counter + 1)

/-- The sequence of candidate names probed by `bodyNameLoop`. -/
def bodyCandList : Nat → String → List String
  | 0, _ => []
  | fuel + 1, nm => nm :: bodyCandList fuel ("_" ++ nm)

/-- The wire-name/value pairs a generated method would send for a
location: one pair per parameter of that location whose argument value is
present, in declaration order. -/
def presentPairs (loc : String) (defs : List ParamDef)
    (argv : String → Option Value) : List (String × Value) :=
  (defs.filter (fun p => p.param_in == loc)).filterMap
    (fun p => (argv p.arg_name).map (fun v => (p.name, v)))

/-!
Concrete schema fixtures used to evaluate the embedding on the inputs the
claims mention.
-/

/-- A path parameter explicitly declared `required: false`. -/
def userIdPathParam : Param :=
  { name := some "user_id"
    param_in := some "path"
    required := some false
    description := none
    schema := some { type := some "string" } }

/-- The operation `GET /users/\x7buser_id\x7d` over `userIdPathParam`. -/
def getUserOp : Operation :=
  { operationId := some "get_user_by_id"
    summary := some "Get user by ID"
    description := none
    parameters := [userIdPathParam]
    requestBody := none }

/-- An optional integer query parameter. -/
def limitQueryParam : Param :=
  { name := some "limit"
    param_in := some "query"
    required := some false
    description := some ""
    schema := some { type := some "integer" } }

/-- The operation `GET /users` over `limitQueryParam`. -/
def getUsersOp : Operation :=
  { operationId := some "get_users"
    summary := some "Get users list"
    description := some "Returns the user list."
    parameters := [limitQueryParam]
    requestBody := none }

/-- An operation whose required request body declares only form-encoded
content. -/
def formBodyOp : Operation :=
  { operationId := some "create_item"
    summary := none
    description := none
    parameters := []
    requestBody := some
      { required := some true
        content := [("application/x-www-form-urlencoded",
          { schema := some { type := some "object" } })] } }

/-- The same operation with JSON content instead. -/
def jsonBodyOp : Operation :=
  { operationId := some "create_item"
    summary := none
    description := none
    parameters := []
    requestBody := some
      { required := some true
        content := [("application/json",
          { schema := some { type := some "object" } })] } }

/-- Argument assignment supplying only the request body. -/
def bodyOnlyArgv : String → Option Value :=
  fun nm => if nm = "request_body" then some (.vStr "name=x") else none

/-- Argument assignment supplying the explicit falsy value `0` for
`limit`. -/
def limitZeroArgv : String → Option Value :=
  fun nm => if nm = "limit" then some (.vInt 0) else none

/-- A query parameter whose wire name is `request_body`. -/
def requestBodyNamedParam : Param :=
  { name := some "request_body"
    param_in := some "query"
    required := some false
    description := some ""
    schema := some { type := some "string" } }

/-- An operation with a request body and a parameter named
`request_body`. -/
def uploadOp : Operation :=
  { operationId := some "upload"
    summary := none
    description := none
    parameters := [requestBodyNamedParam]
    requestBody := some { required := some false, content := [] } }

/-- The expected successful request of `getUserOp` invoked with no
arguments. -/
def getUserNoneRequest : Request :=
  { url := "https://api.example.com/users/None"
    http_verb := "get"
    query_params := []
    header_params := []
    json_body := none }

/-- The expected successful request of `formBodyOp`. -/
def formBodyRequest : Request :=
  { url := "https://api.example.com/items"
    http_verb := "post"
    query_params := []
    header_params := []
    json_body := some (.vStr "name=x") }

/-- The expected successful request of `getUsersOp` under
`limitZeroArgv`. -/
def limitZeroRequest : Request :=
  { url := "https://api.example.com/users"
    http_verb := "get"
    query_params := [("limit", .vInt 0)]
    header_params := []
    json_body := none }

/-- A path-level header parameter. -/
def tenantHeaderParam : Param :=
  { name := some "tenant_id"
    param_in := some "header"
    required := some false
    description := none
    schema := some { type := some "string" } }

/-- An operation-level redeclaration of `user_id` in `path`, overriding
the path-level declaration. -/
def userIdRequiredParam : Param :=
  { name := some "user_id"
    param_in := some "path"
    required := some true
    description := some "overridden"
    schema := some { type := some "string" } }

/-!
Lemmas about the Python-dict model.
-/

/-- Inserting a fresh key appends the binding. -/
lemma dictInsert_not_mem {α β : Type} [DecidableEq α] {k : α} (v : β)
    {d : List (α × β)} (h : k ∉ dictKeys d) :
    dictInsert k v d = d ++ [(k, v)] := by
  induction d with
  | nil => rfl
  | cons e rest ih =>
    simp only [dictKeys, List.map_cons, List.mem_cons] at h
    push_neg at h
    rw [dictInsert, if_neg (by exact fun he => h.1 he.symm)]
    rw [ih (by simpa [dictKeys] using h.2)]
    simp

/-- Key list after an insertion. -/
lemma dictKeys_dictInsert {α β : Type} [DecidableEq α] (k : α) (v : β)
    (d : List (α × β)) :
    dictKeys (dictInsert k v d) =
      if k ∈ dictKeys d then dictKeys d else dictKeys d ++ [k] := by
  induction d with
  | nil => simp [dictInsert, dictKeys]
  | cons e rest ih =>
    by_cases he : e.1 = k
    · simp [dictInsert, he, dictKeys]
    · rw [dictInsert, if_neg he]
      simp only [dictKeys, List.map_cons] at ih ⊢
      rw [ih]
      by_cases hm : k ∈ List.map Prod.fst rest
      · simp [hm, Ne.symm he]
      · simp [hm, Ne.symm he]

/-- Inserting an existing key under duplicate-free keys rewrites exactly
the binding of that key, in place. -/
lemma dictInsert_mem_nodup {α β : Type} [DecidableEq α] {k : α} (v : β)
    {d : List (α × β)} (hnd : (dictKeys d).Nodup) (h : k ∈ dictKeys d) :
    dictInsert k v d = d.map (fun e => if e.1 = k then (k, v) else e) := by
  induction d with
  | nil => simp [dictKeys] at h
  | cons e rest ih =>
    simp only [dictKeys, List.map_cons, List.nodup_cons] at hnd
    by_cases he : e.1 = k
    · rw [dictInsert, if_pos he, List.map_cons, if_pos he]
      have : rest.map (fun e => if e.1 = k then (k, v) else e) = rest := by
        conv_rhs => rw [← List.map_id rest]
        apply List.map_congr_left
        intro x hx
        simp only [id]
        rw [if_neg]
        intro hxk
        have hm : x.1 ∈ List.map Prod.fst rest := List.mem_map_of_mem Prod.fst hx
        rw [hxk, ← he] at hm
        exact hnd.1 hm
      rw [this]
    · rw [dictInsert, if_neg he, List.map_cons, if_neg he]
      have hk : k ∈ dictKeys rest := by
        simp only [dictKeys, List.map_cons, List.mem_cons] at h
        exact h.resolve_left (fun hk => he hk.symm)
      rw [ih hnd.2 hk]

/-- Folding fresh, duplicate-free insertions over a dict appends the
bindings in order. -/
lemma foldl_dictInsert_append {α β : Type} [DecidableEq α] :
    ∀ (pairs : List (α × β)) (d : List (α × β)),
      (∀ e ∈ pairs, e.1 ∉ dictKeys d) → (pairs.map Prod.fst).Nodup →
      pairs.foldl (fun d e => dictInsert e.1 e.2 d) d = d ++ pairs := by
  intro pairs
  induction pairs with
  | nil => intro d _ _; simp
  | cons e rest ih =>
    intro d hfresh hnd
    simp only [List.map_cons, List.nodup_cons] at hnd
    have he : e.1 ∉ dictKeys d := hfresh e (by simp)
    simp only [List.foldl_cons]
    rw [dictInsert_not_mem e.2 he]
    rw [ih (d ++ [(e.1, e.2)]) ?_ hnd.2]
    · simp
    · intro x hx
      have h₁ : x.1 ∉ dictKeys d := hfresh x (by simp [hx])
      have h₂ : x.1 ≠ e.1 := by
        intro hx1
        exact hnd.1 (hx1 ▸ List.mem_map_of_mem Prod.fst hx)
      simp [dictKeys, List.map_append] at h₁ ⊢
      exact ⟨h₁, h₂⟩

/-- Folding keyed insertions with duplicate-free keys over a dict with
duplicate-free keys: existing keys are overridden in place, fresh keys are
appended in order.  This is exactly CPython's `dict.update`. -/
lemma foldl_dictInsert_merge {α β : Type} [DecidableEq α] (key : β → α) :
    ∀ (qs : List β) (m : List (α × β)),
      (dictKeys m).Nodup → (qs.map key).Nodup →
      qs.foldl (fun d q => dictInsert (key q) q d) m =
        m.map (fun e =>
          match qs.find? (fun q => decide (key q = e.1)) with
          | some q => (e.1, q)
          | none => e) ++
        (qs.filter (fun q => decide (key q ∉ dictKeys m))).map
          (fun q => (key q, q)) := by
  intro qs
  induction qs with
  | nil =>
    intro m _ _
    simp [List.find?]
  | cons q qs ih =>
    intro m hm hnd
    simp only [List.map_cons, List.nodup_cons] at hnd
    have hfindq : qs.find? (fun q' => decide (key q' = key q)) = none := by
      rw [List.find?_eq_none]
      intro x hx
      simp only [decide_eq_true_eq]
      intro hxq
      have hmm := List.mem_map_of_mem key hx
      rw [hxq] at hmm
      exact hnd.1 hmm
    simp only [List.foldl_cons]
    by_cases hmem : key q ∈ dictKeys m
    · rw [dictInsert_mem_nodup q hm hmem]
      have hkeys : dictKeys (m.map (fun e => if e.1 = key q then (key q, q) else e))
          = dictKeys m := by
        simp only [dictKeys, List.map_map]
        apply List.map_congr_left
        intro e _
        by_cases he : e.1 = key q <;> simp [he]
      rw [ih _ (by rw [hkeys]; exact hm) hnd.2]
      congr 1
      · rw [List.map_map]
        apply List.map_congr_left
        intro e he
        by_cases heq : e.1 = key q
        · have hfind : qs.find? (fun q' => decide (key q' = e.1)) = none := by
            rw [heq]; exact hfindq
          have hd : decide (key q = e.1) = true := by simp [heq]
          simp [Function.comp, heq, List.find?_cons, hd, hfind]
          simp [hfindq]
        · have hd : decide (key q = e.1) = false :=
            decide_eq_false (fun h => heq h.symm)
          simp [Function.comp, heq, List.find?_cons, hd]
      · rw [hkeys]
        rw [List.filter_cons, if_neg (by simp [hmem])]
    · rw [dictInsert_not_mem q hmem]
      have hkeys : dictKeys (m ++ [(key q, q)]) = dictKeys m ++ [key q] := by
        simp [dictKeys]
      have hnodup' : (dictKeys (m ++ [(key q, q)])).Nodup := by
        rw [hkeys, List.nodup_append]
        refine ⟨hm, by simp, ?_⟩
        intro a ha hb
        simp only [List.mem_singleton] at hb
        exact hmem (hb ▸ ha)
      rw [ih _ hnodup' hnd.2]
      rw [List.map_append]
      have hq_self : (((key q, q) : α × β) :: []).map (fun e =>
          match qs.find? (fun q' => decide (key q' = e.1)) with
          | some q' => (e.1, q')
          | none => e) = [(key q, q)] := by
        simp [hfindq]
      rw [hq_self]
      have hmap : m.map (fun e =>
          match qs.find? (fun q' => decide (key q' = e.1)) with
          | some q' => (e.1, q')
          | none => e) = m.map (fun e =>
          match (q :: qs).find? (fun q' => decide (key q' = e.1)) with
          | some q' => (e.1, q')
          | none => e) := by
        apply List.map_congr_left
        intro e he
        have hne : e.1 ≠ key q := by
          intro h
          exact hmem (h ▸ List.mem_map_of_mem Prod.fst he)
        have hd : decide (key q = e.1) = false :=
          decide_eq_false (fun h => hne h.symm)
        simp [List.find?_cons, hd]
      rw [hmap]
      have hfilter : qs.filter (fun q' => decide (key q' ∉ dictKeys (m ++ [(key q, q)])))
          = qs.filter (fun q' => decide (key q' ∉ dictKeys m)) := by
        apply List.filter_congr
        intro x hx
        rw [hkeys]
        simp only [List.mem_append, List.mem_singleton, decide_eq_decide]
        have : key x ≠ key q := fun hxq => hnd.1 (hxq ▸ List.mem_map_of_mem key hx)
        simp [this]
      rw [hfilter]
      rw [List.filter_cons, if_pos (by simp [hmem])]
      simp [List.append_assoc]

/-!
Correctness of the two collision-resolution while loops: with the fuel
supplied in the embedding they always return a name that is not yet
assigned.
-/

/-- If the loop result is still assigned, every probed candidate was
assigned. -/
lemma whileNameLoop_mem (assigned : List String) (base : String) :
    ∀ (fuel : Nat) (cand : String) (counter : Nat),
      whileNameLoop fuel assigned base cand counter ∈ assigned →
      ∀ x ∈ candList base fuel cand counter, x ∈ assigned := by
  intro fuel
  induction fuel with
  | zero => intro cand counter _ x hx; simp [candList] at hx
  | succ fuel ih =>
    intro cand counter hres x hx
    rw [whileNameLoop] at hres
    by_cases hc : cand ∈ assigned
    · rw [if_pos hc] at hres
      rw [candList] at hx
      rcases List.mem_cons.mp hx with hx | hx
      · rw [hx]; exact hc
      · exact ih (base ++ Nat.repr counter) (counter + 1) hres x hx
    · rw [if_neg hc] at hres
      exact absurd hres hc

/-- Closed form of the candidate sequence. -/
lemma candList_eq (base : String) :
    ∀ (fuel : Nat) (cand : String) (counter : Nat),
      candList base (fuel + 1) cand counter =
        cand :: (List.range fuel).map (fun i => base ++ Nat.repr (counter + i)) := by
  intro fuel
  induction fuel with
  | zero => intro cand counter; simp [candList]
  | succ fuel ih =>
    intro cand counter
    rw [candList, ih, List.range_succ_eq_map]
    simp only [List.map_cons, List.map_map, Nat.add_zero]
    congr 1
    congr 1
    apply List.map_congr_left
    intro i _
    simp only [Function.comp]
    congr 2
    omega

/-- A base name differs from every counter-suffixed candidate. -/
lemma base_ne_suffixed (base : String) (c : Nat) :
    base ≠ base ++ Nat.repr c := by
  intro h
  have h' : base ++ "" = base ++ Nat.repr c := by simpa using h
  exact nat_repr_ne_empty c (string_append_left_cancel h').symm

/-- The candidate sequence probed from the base name is duplicate-free. -/
lemma candList_nodup (base : String) (fuel : Nat) (counter : Nat) :
    (candList base (fuel + 1) base counter).Nodup := by
  rw [candList_eq]
  rw [List.nodup_cons]
  constructor
  · intro hmem
    rcases List.mem_map.mp hmem with ⟨i, _, hi⟩
    exact base_ne_suffixed base (counter + i) hi.symm
  · apply List.Nodup.map
    · intro i j hij
      have := string_append_left_cancel hij
      have := nat_repr_injective this
      omega
    · exact List.nodup_range fuel

/-- Length of the candidate sequence. -/
lemma candList_length (base : String) :
    ∀ (fuel : Nat) (cand : String) (counter : Nat),
      (candList base fuel cand counter).length = fuel := by
  intro fuel
  induction fuel with
  | zero => intro cand counter; rfl
  | succ fuel ih => intro cand counter; rw [candList]; simp [ih]

/-- The name chosen by `uniqueArgName` is never an already assigned one. -/
lemma uniqueArgName_not_mem (assigned : List String)
    (initialArg paramIn : String) :
    uniqueArgName assigned initialArg paramIn ∉ assigned := by
  rw [uniqueArgName]
  by_cases h0 : initialArg ∈ assigned
  · rw [if_pos h0]
    intro hres
    have hall := whileNameLoop_mem assigned (initialArg ++ "_" ++ paramIn)
      (assigned.length + 2) (initialArg ++ "_" ++ paramIn) 2 hres
    have hsub : candList (initialArg ++ "_" ++ paramIn) (assigned.length + 2)
        (initialArg ++ "_" ++ paramIn) 2 ⊆ assigned := fun x hx => hall x hx
    have hnd := candList_nodup (initialArg ++ "_" ++ paramIn)
      (assigned.length + 1) 2
    have hlen := (List.subperm_of_subset hnd hsub).length_le
    rw [candList_length] at hlen
    omega
  · rw [if_neg h0]; exact h0

/-- If the body-name loop result is still assigned, every probed candidate
was assigned. -/
lemma bodyNameLoop_mem (assigned : List String) :
    ∀ (fuel : Nat) (nm : String),
      bodyNameLoop fuel assigned nm ∈ assigned →
      ∀ x ∈ bodyCandList fuel nm, x ∈ assigned := by
  intro fuel
  induction fuel with
  | zero => intro nm _ x hx; simp [bodyCandList] at hx
  | succ fuel ih =>
    intro nm hres x hx
    rw [bodyNameLoop] at hres
    by_cases hc : nm ∈ assigned
    · rw [if_pos hc] at hres
      rw [bodyCandList] at hx
      rcases List.mem_cons.mp hx with hx | hx
      · rw [hx]; exact hc
      · exact ih ("_" ++ nm) hres x hx
    · rw [if_neg hc] at hres
      exact absurd hres hc

/-- Every candidate probed after `nm` is at least as long as `nm`. -/
lemma bodyCandList_length_le :
    ∀ (fuel : Nat) (nm : String), ∀ x ∈ bodyCandList fuel nm,
      nm.length ≤ x.length := by
  intro fuel
  induction fuel with
  | zero => intro nm x hx; simp [bodyCandList] at hx
  | succ fuel ih =>
    intro nm x hx
    rw [bodyCandList] at hx
    rcases List.mem_cons.mp hx with hx | hx
    · rw [hx]
    · have := ih ("_" ++ nm) x hx
      have hl : ("_" ++ nm).length = nm.length + 1 := by
        have h1 : ("_" : String).length = 1 := rfl
        rw [String.length_append, h1]
        omega
      omega

/-- The body-name candidate sequence is duplicate-free: candidate lengths
strictly increase. -/
lemma bodyCandList_nodup : ∀ (fuel : Nat) (nm : String),
    (bodyCandList fuel nm).Nodup := by
  intro fuel
  induction fuel with
  | zero => intro nm; simp [bodyCandList]
  | succ fuel ih =>
    intro nm
    rw [bodyCandList, List.nodup_cons]
    refine ⟨?_, ih ("_" ++ nm)⟩
    intro hmem
    have := bodyCandList_length_le fuel ("_" ++ nm) nm hmem
    have hl : ("_" ++ nm).length = nm.length + 1 := by
      have h1 : ("_" : String).length = 1 := rfl
      rw [String.length_append, h1]
      omega
    omega

/-- Length of the body-name candidate sequence. -/
lemma bodyCandList_length : ∀ (fuel : Nat) (nm : String),
    (bodyCandList fuel nm).length = fuel := by
  intro fuel
  induction fuel with
  | zero => intro nm; rfl
  | succ fuel ih => intro nm; rw [bodyCandList]; simp [ih]

/-- The resolved body argument name is never an assigned argument name. -/
lemma computeBodyArgName_not_mem (assigned : List String) :
    computeBodyArgName assigned ∉ assigned := by
  rw [computeBodyArgName]
  intro hres
  have hall := bodyNameLoop_mem assigned (assigned.length + 1) "request_body" hres
  have hsub : bodyCandList (assigned.length + 1) "request_body" ⊆ assigned :=
    fun x hx => hall x hx
  have hnd := bodyCandList_nodup (assigned.length + 1) "request_body"
  have hlen := (List.subperm_of_subset hnd hsub).length_le
  rw [bodyCandList_length] at hlen
  omega

/-- Argument names assigned by the parameter loop are duplicate-free and
avoid every previously assigned name. -/
lemma buildParamDefs_arg_names :
    ∀ (ps : List Param) (assigned : List String),
      ((buildParamDefs ps assigned).map (fun p => p.arg_name)).Nodup ∧
      ∀ x ∈ (buildParamDefs ps assigned).map (fun p => p.arg_name),
        x ∉ assigned := by
  intro ps
  induction ps with
  | nil => intro assigned; simp [buildParamDefs]
  | cons p rest ih =>
    intro assigned
    rw [buildParamDefs]
    by_cases hv : paramValid p
    · rw [if_pos hv]
      simp only [List.map_cons]
      obtain ⟨ihnd, ihfresh⟩ := ih
        (uniqueArgName assigned (pyReplaceChar (p.name.getD "") '-' '_')
          (p.param_in.getD "") :: assigned)
      set u := uniqueArgName assigned (pyReplaceChar (p.name.getD "") '-' '_')
        (p.param_in.getD "") with hu
      constructor
      · rw [List.nodup_cons]
        refine ⟨?_, ihnd⟩
        intro hmem
        exact (ihfresh u hmem) (by simp)
      · intro x hx
        rcases List.mem_cons.mp hx with hx | hx
        · rw [hx]
          exact uniqueArgName_not_mem assigned _ _
        · have := ihfresh x hx
          intro hxa
          exact this (by simp [hxa])
    · rw [if_neg hv]
      exact ih assigned

/-- The full argument-name list of a generated method (parameters plus
body argument) is duplicate-free. -/
lemma methodArgNames_nodup (parameters : List Param) (hasBody : Bool) :
    (methodArgNames parameters hasBody).Nodup := by
  rw [methodArgNames]
  have h := buildParamDefs_arg_names parameters []
  cases hasBody with
  | false => simpa [computeParamDefs] using h.1
  | true =>
    simp only [if_pos]
    rw [List.nodup_append]
    refine ⟨by simpa [computeParamDefs] using h.1, by simp, ?_⟩
    intro a ha hb
    simp only [List.mem_singleton] at hb
    rw [hb] at ha
    exact computeBodyArgName_not_mem _ ha

/-- Field values of a successful generated-method invocation, read off
from the embedding: HTTP verb, query map, header map and JSON body. -/
lemma runMethod_ok_fields {path method : String} {op : Operation}
    {parameters : List Param} {api_base_url : String}
    {argv : String → Option Value} {req : Request}
    (h : runMethod path method op parameters api_base_url argv = .ok req) :
    req.http_verb = pyLower method ∧
    req.query_params = buildParamMap "query" (computeParamDefs parameters) argv ∧
    req.header_params = buildParamMap "header" (computeParamDefs parameters) argv ∧
    req.json_body = (if op.requestBody.isSome then
      argv (computeBodyArgName
        ((computeParamDefs parameters).map (fun p => p.arg_name)))
      else none) := by
  rw [runMethod] at h
  split at h
  · exact absurd h (by simp)
  · split at h
    · exact absurd h (by simp)
    · split at h
      · exact absurd h (by simp)
      · rw [Except.ok.injEq] at h
        rw [← h]
        refine ⟨rfl, rfl, rfl, ?_⟩
        by_cases hb : op.requestBody.isSome <;> simp [hb]

/-- The drop-on-`None` fold equals a dict built from the present pairs. -/
lemma buildParamMap_foldl (argv : String → Option Value) :
    ∀ (l : List ParamDef) (d : List (String × Value)),
      l.foldl (fun d p =>
        match argv p.arg_name with
        | some v => dictInsert p.name v d
        | none => d) d =
      (l.filterMap (fun p => (argv p.arg_name).map (fun v => (p.name, v)))).foldl
        (fun d e => dictInsert e.1 e.2 d) d := by
  intro l
  induction l with
  | nil => intro d; rfl
  | cons p rest ih =>
    intro d
    simp only [List.foldl_cons, List.filterMap_cons]
    cases hv : argv p.arg_name with
    | none => simpa using ih d
    | some v => simpa using ih (dictInsert p.name v d)

/-- Wire names of the present pairs form a sublist of the location's wire
names. -/
lemma presentPairs_fst_sublist (loc : String) (defs : List ParamDef)
    (argv : String → Option Value) :
    ((presentPairs loc defs argv).map Prod.fst).Sublist
      ((defs.filter (fun p => p.param_in == loc)).map (fun p => p.name)) := by
  rw [presentPairs]
  generalize defs.filter (fun p => p.param_in == loc) = l
  induction l with
  | nil => simp
  | cons p rest ih =>
    simp only [List.filterMap_cons, List.map_cons]
    cases hv : argv p.arg_name with
    | none => exact ih.cons p.name
    | some v => simpa using ih.cons₂ p.name

/-- Under duplicate-free wire names for the location, the dict a generated
method builds for that location is exactly the list of present pairs: an
entry is dropped precisely when its argument value is absent. -/
lemma buildParamMap_eq_presentPairs (loc : String) (defs : List ParamDef)
    (argv : String → Option Value)
    (hnd : ((defs.filter (fun p => p.param_in == loc)).map
      (fun p => p.name)).Nodup) :
    buildParamMap loc defs argv = presentPairs loc defs argv := by
  have hfresh : ∀ e ∈ presentPairs loc defs argv,
      e.1 ∉ dictKeys ([] : List (String × Value)) := by
    simp [dictKeys]
  have hnd2 : ((presentPairs loc defs argv).map Prod.fst).Nodup :=
    (presentPairs_fst_sublist loc defs argv).nodup hnd
  rw [buildParamMap, buildParamMap_foldl]
  have happ := foldl_dictInsert_append (presentPairs loc defs argv) [] hfresh hnd2
  simpa [presentPairs] using happ

/-- Head of a `dropWhile` result never satisfies the dropped predicate. -/
lemma dropWhile_head?_not {α : Type} (p : α → Bool) :
    ∀ (l : List α) (x : α), (l.dropWhile p).head? = some x → p x = false := by
  intro l
  induction l with
  | nil => intro x hx; simp [List.dropWhile] at hx
  | cons a t ih =>
    intro x hx
    rw [List.dropWhile] at hx
    by_cases ha : p a
    · rw [ha] at hx
      exact ih x hx
    · simp only [Bool.not_eq_true] at ha
      rw [ha] at hx
      simp only [List.head?_cons, Option.some.injEq] at hx
      rw [← hx]
      exact ha

/-- Right-stripping characterization: the result never ends with the
stripped character, and the input is the result followed by some run of
that character. -/
lemma pyRstrip_spec (s : String) (c : Char) :
    (pyRstrip s c).data.getLast? ≠ some c ∧
    ∃ n, s.data = (pyRstrip s c).data ++ List.replicate n c := by
  constructor
  · intro hlast
    rw [pyRstrip] at hlast
    simp only [List.getLast?_reverse] at hlast
    have := dropWhile_head?_not (fun d => d = c) (s.data.reverse) c hlast
    simp at this
  · refine ⟨(s.data.reverse.takeWhile (fun d => d = c)).length, ?_⟩
    have hsplit := List.takeWhile_append_dropWhile (fun d => d = c) (l := s.data.reverse)
    have htake : s.data.reverse.takeWhile (fun d => d = c) =
        List.replicate (s.data.reverse.takeWhile (fun d => d = c)).length c := by
      apply List.eq_replicate_of_mem
      intro b hb
      have := List.mem_takeWhile_imp hb
      simpa using this
    calc s.data = s.data.reverse.reverse := by rw [List.reverse_reverse]
    _ = (s.data.reverse.takeWhile (fun d => d = c)
          ++ s.data.reverse.dropWhile (fun d => d = c)).reverse := by rw [hsplit]
    _ = (s.data.reverse.dropWhile (fun d => d = c)).reverse
          ++ (s.data.reverse.takeWhile (fun d => d = c)).reverse := by
        rw [List.reverse_append]
    _ = (pyRstrip s c).data
          ++ List.replicate (s.data.reverse.takeWhile (fun d => d = c)).length c := by
        rw [pyRstrip]
        congr 1
        rw [htake, List.reverse_replicate, List.length_replicate]

/-- Membership in a dict insertion: the new binding or an old one. -/
lemma dictInsert_mem {α β : Type} [DecidableEq α] {k : α} {v : β}
    {d : List (α × β)} {e : α × β} (h : e ∈ dictInsert k v d) :
    e = (k, v) ∨ e ∈ d := by
  induction d with
  | nil => simpa [dictInsert] using h
  | cons f rest ih =>
    rw [dictInsert] at h
    by_cases hf : f.1 = k
    · rw [if_pos hf] at h
      rcases List.mem_cons.mp h with h | h
      · exact Or.inl h
      · exact Or.inr (List.mem_cons_of_mem f h)
    · rw [if_neg hf] at h
      rcases List.mem_cons.mp h with h | h
      · exact Or.inr (h ▸ List.mem_cons_self f rest)
      · rcases ih h with h | h
        · exact Or.inl h
        · exact Or.inr (List.mem_cons_of_mem f h)

/-- Membership after folding keyed insertions: a new binding or one of the
initial dict. -/
lemma foldl_dictInsert_mem {α β : Type} [DecidableEq α] (key : β → α) :
    ∀ (qs : List β) (m : List (α × β)) (e : α × β),
      e ∈ qs.foldl (fun d q => dictInsert (key q) q d) m →
      (∃ q ∈ qs, e = (key q, q)) ∨ e ∈ m := by
  intro qs
  induction qs with
  | nil => intro m e h; exact Or.inr h
  | cons q rest ih =>
    intro m e h
    rw [List.foldl_cons] at h
    rcases ih (dictInsert (key q) q m) e h with h | h
    · rcases h with ⟨q', hq', he⟩
      exact Or.inl ⟨q', List.mem_cons_of_mem q hq', he⟩
    · rcases dictInsert_mem h with h | h
      · exact Or.inl ⟨q, List.mem_cons_self q rest, h⟩
      · exact Or.inr h

/-- Every parameter surviving the merge is valid (came through one of the
two validity filters). -/
lemma mergeParams_mem_valid (pathLevel opLevel : List Param) :
    ∀ p ∈ mergeParams pathLevel opLevel, paramValid p := by
  intro p hp
  rw [mergeParams] at hp
  rcases List.mem_map.mp hp with ⟨e, he, hep⟩
  rcases foldl_dictInsert_mem paramKey _ _ e he with h | h
  · rcases h with ⟨q, hq, heq⟩
    have := List.of_mem_filter hq
    rw [← hep, heq]
    exact this
  · rcases foldl_dictInsert_mem paramKey _ _ e h with h' | h'
    · rcases h' with ⟨q, hq, heq⟩
      have := List.of_mem_filter hq
      rw [← hep, heq]
      exact this
    · simp at h'

/-- For a list of valid parameters the compiled definitions project back
onto the wire names, in order. -/
lemma buildParamDefs_names :
    ∀ (ps : List Param) (assigned : List String), (∀ p ∈ ps, paramValid p) →
      (buildParamDefs ps assigned).map (fun d => d.name) =
        ps.map (fun p => p.name.getD "") := by
  intro ps
  induction ps with
  | nil => intro assigned _; rfl
  | cons p rest ih =>
    intro assigned hv
    rw [buildParamDefs, if_pos (hv p (List.mem_cons_self p rest))]
    simp only [List.map_cons]
    rw [ih _ (fun q hq => hv q (List.mem_cons_of_mem p hq))]

/-!
Claim theorems.
-/

/-- C6: the function-name normalizer applied to a raw `operationId` is
idempotent: applying it to its own output yields the identical string. -/
theorem C6_normalizer_idempotent (s : String) :
    funcNameOfOperationId (funcNameOfOperationId s) = funcNameOfOperationId s := by
  cases s with
  | mk l =>
    apply String.ext
    simp only [funcNameOfOperationId, pyReplaceChar, List.map_map]
    induction l with
    | nil => rfl
    | cons c t ih =>
      simp only [List.map_cons, List.cons.injEq]
      refine ⟨?_, ih⟩
      by_cases h1 : c = '.'
      · subst h1; decide
      · by_cases h2 : c = '-'
        · subst h2; decide
        · simp [h1, h2]

/-- C7 counterexample: the function-name normalizer maps the empty
operation id to the empty string (no sentinel fallback) and keeps a
leading digit (no marker prefix), contradicting the claim that the result
is always non-empty and never digit-leading. -/
theorem C7_cex_empty_and_digit :
    funcNameOfOperationId "" = "" ∧
    funcNameOfOperationId "1.get-user" = "1_get_user" ∧
    ("1_get_user".get 0).isDigit = true := by
  refine ⟨rfl, by decide, by decide⟩

/-- C7 amended: the normalizer only replaces dots and hyphens with
underscores; it preserves the length, returns the empty string exactly for
empty input (no sentinel), and preserves a leading digit (no marker
prefix). -/
theorem C7_amended_no_guard (s : String) :
    (funcNameOfOperationId s).length = s.length ∧
    (funcNameOfOperationId s = "" ↔ s = "") ∧
    (∀ c : Char, s.data.head? = some c → c.isDigit = true →
      (funcNameOfOperationId s).data.head? = some c) := by
  refine ⟨?_, ?_, ?_⟩
  · cases s with
    | mk l => simp [funcNameOfOperationId, pyReplaceChar, String.length]
  · cases s with
    | mk l =>
      simp only [funcNameOfOperationId, pyReplaceChar]
      constructor
      · intro h
        have hd := congrArg String.data h
        simp only at hd
        rw [List.map_eq_nil_iff, List.map_eq_nil_iff] at hd
        subst hd
        rfl
      · intro h
        have hd := congrArg String.data h
        simp only at hd
        subst hd
        rfl
  · intro c hc hd
    cases s with
    | mk l =>
      cases l with
      | nil => simp at hc
      | cons a t =>
        simp only [List.head?_cons, Option.some.injEq] at hc
        rw [← hc] at hd
        have h1 : a ≠ '.' := fun he => absurd (he ▸ hd) (by decide)
        have h2 : a ≠ '-' := fun he => absurd (he ▸ hd) (by decide)
        rw [← hc]
        simp [funcNameOfOperationId, pyReplaceChar, h1, h2]

/-- C7 amended witness at a concrete digit-leading input. -/
theorem C7_amended_no_guard_witness :
    (funcNameOfOperationId "123abc").data.head? = some '1' :=
  (C7_amended_no_guard "123abc").2.2 '1' rfl (by decide)

/-- C1: the code derives requiredness from the declared `required` flag
alone, so a path parameter declared `required: false` is compiled as
optional: it is absent from the manifest `required` list and the generated
method raises nothing when called without it, substituting the string
`None` into the URL instead. -/
theorem C1_path_param_not_required_bug :
    (computeParamDefs [userIdPathParam]).map
      (fun d => (d.arg_name, d.required)) = [("user_id", false)] ∧
    runMethod "/users/\x7buser_id\x7d" "get" getUserOp [userIdPathParam]
      "https://api.example.com" (fun _ => none) = .ok getUserNoneRequest ∧
    (generate_tool_definition "get_user_by_id" getUserOp
      (computeParamDefs [userIdPathParam])).map
      (fun td => td.parameters.required) = some none := by
  exact ⟨rfl, rfl, rfl⟩

/-- C2: the emitted tool manifest entry carries only the `parameters` key;
the `name` and `description` keys are absent (left as comments in the
source), even for an operation with a summary and description. -/
theorem C2_manifest_name_description_bug :
    (generate_tool_definition "get_users" getUsersOp
      (computeParamDefs [limitQueryParam])).map (fun td => td.name) =
        some none ∧
    (generate_tool_definition "get_users" getUsersOp
      (computeParamDefs [limitQueryParam])).map (fun td => td.description) =
        some none ∧
    generate_tool_definition "get_users" getUsersOp
      (computeParamDefs [limitQueryParam]) =
      some { name := none
             description := none
             parameters :=
               { type := "object"
                 properties :=
                   [("limit", { description := some ""
                                type := some "number" })]
                 required := none } } := by
  exact ⟨rfl, rfl, rfl⟩

/-- C4 counterexample: an operation whose request body declares only
`application/x-www-form-urlencoded` content still has its body passed as
the `json=` payload of the request, and the compiled method is completely
insensitive to the declared media type. -/
theorem C4_cex_form_body_sent_as_json :
    runMethod "/items" "post" formBodyOp [] "https://api.example.com"
      bodyOnlyArgv = .ok formBodyRequest ∧
    runMethod "/items" "post" formBodyOp [] "https://api.example.com"
      bodyOnlyArgv =
    runMethod "/items" "post" jsonBodyOp [] "https://api.example.com"
      bodyOnlyArgv := by
  exact ⟨rfl, rfl⟩

/-- C4 amended: there is no media type selection; whenever an operation
declares a request body, a successful invocation passes the supplied body
argument as the `json=` payload, and no body is sent otherwise. -/
theorem C4_amended_body_always_json (path method : String) (op : Operation)
    (parameters : List Param) (base : String) (argv : String → Option Value)
    (req : Request)
    (h : runMethod path method op parameters base argv = .ok req) :
    req.json_body = (if op.requestBody.isSome then
      argv (computeBodyArgName
        ((computeParamDefs parameters).map (fun p => p.arg_name)))
      else none) :=
  (runMethod_ok_fields h).2.2.2

/-- C4 amended witness at a concrete form-encoded-only operation. -/
theorem C4_amended_body_always_json_witness :
    formBodyRequest.json_body =
    (if formBodyOp.requestBody.isSome then
      bodyOnlyArgv
        (computeBodyArgName ((computeParamDefs []).map (fun p => p.arg_name)))
      else none) :=
  C4_amended_body_always_json "/items" "post" formBodyOp []
    "https://api.example.com" bodyOnlyArgv formBodyRequest rfl

/-- C3: in a successfully invoked generated method the outgoing query and
header maps contain exactly the wire-name/value pairs whose argument value
was supplied, in declaration order; an entry is dropped only when the
value is absent, so explicitly supplied falsy values are kept. -/
theorem C3_drop_only_absent (path method : String) (op : Operation)
    (parameters : List Param) (base : String) (argv : String → Option Value)
    (req : Request)
    (hq : (((computeParamDefs parameters).filter
      (fun p => p.param_in == "query")).map (fun p => p.name)).Nodup)
    (hh : (((computeParamDefs parameters).filter
      (fun p => p.param_in == "header")).map (fun p => p.name)).Nodup)
    (h : runMethod path method op parameters base argv = .ok req) :
    req.query_params = presentPairs "query" (computeParamDefs parameters) argv ∧
    req.header_params = presentPairs "header" (computeParamDefs parameters) argv ∧
    (∀ p ∈ computeParamDefs parameters, p.param_in = "query" →
      ∀ v, argv p.arg_name = some v → (p.name, v) ∈ req.query_params) := by
  obtain ⟨_, hq', hh', _⟩ := runMethod_ok_fields h
  have heq : req.query_params = presentPairs "query" (computeParamDefs parameters) argv :=
    hq'.trans (buildParamMap_eq_presentPairs _ _ _ hq)
  have heh : req.header_params = presentPairs "header" (computeParamDefs parameters) argv :=
    hh'.trans (buildParamMap_eq_presentPairs _ _ _ hh)
  refine ⟨heq, heh, ?_⟩
  intro p hp hloc v hv
  rw [heq, presentPairs]
  apply List.mem_filterMap.mpr
  refine ⟨p, ?_, ?_⟩
  · apply List.mem_filter.mpr
    exact ⟨hp, by simp [hloc]⟩
  · rw [hv]; rfl

/-- C3 witness: a query value of `0` explicitly supplied is kept in the
outgoing query map. -/
theorem C3_drop_only_absent_witness :
    limitZeroRequest.query_params =
      presentPairs "query" (computeParamDefs [limitQueryParam]) limitZeroArgv ∧
    ("limit", Value.vInt 0) ∈ limitZeroRequest.query_params := by
  have h := C3_drop_only_absent "/users" "get" getUsersOp [limitQueryParam]
    "https://api.example.com" limitZeroArgv limitZeroRequest
    (by decide) (by decide) rfl
  refine ⟨h.1, ?_⟩
  refine h.2.2
    { name := "limit"
      arg_name := "limit"
      param_in := "query"
      required := false
      description := ""
      schemaType := some "integer"
      py_type := "int" }
    (by decide) rfl (.vInt 0) rfl

/-- C9 counterexample: a server URL containing a `\x7bvariable\x7d`
placeholder is returned with the placeholder intact; the code only
right-trims slashes and never strips placeholders. -/
theorem C9_cex_placeholder_kept :
    extractBaseUrl [{ url := some "https://\x7bregion\x7d.example.com/v1" }] =
      ("https://\x7bregion\x7d.example.com/v1", false) ∧
    '\x7b' ∈ (extractBaseUrl
      [{ url := some "https://\x7bregion\x7d.example.com/v1" }]).1.data := by
  refine ⟨rfl, by decide⟩

/-- C9 amended: the schema-derived base URL is the first server entry's
URL with trailing slashes right-trimmed and placeholders left intact; a
missing or url-less server list yields the placeholder marker plus a
warning instead of a failure; a non-empty explicit override always wins,
and the documented example round-trips. -/
theorem C9_amended_base_url (u : String) (rest : List Server) (s d : String) :
    extractBaseUrl ({ url := some u } :: rest) = (pyRstrip u '/', false) ∧
    (pyRstrip u '/').data.getLast? ≠ some '/' ∧
    (∃ n, u.data = (pyRstrip u '/').data ++ List.replicate n '/') ∧
    extractBaseUrl [] = ("\x7bYOUR_API_BASE_URL\x7d", true) ∧
    extractBaseUrl ({ url := none } :: rest) = ("\x7bYOUR_API_BASE_URL\x7d", true) ∧
    (s ≠ "" → resolveBaseUrl (some s) d = s) ∧
    resolveBaseUrl none d = d ∧
    extractBaseUrl [{ url := some "https://api.example.com/v1" }] =
      ("https://api.example.com/v1", false) := by
  refine ⟨rfl, (pyRstrip_spec u '/').1, (pyRstrip_spec u '/').2, rfl, rfl,
    ?_, rfl, rfl⟩
  intro hs
  rw [resolveBaseUrl, if_neg hs]

/-- C9 amended witness at concrete inputs. -/
theorem C9_amended_base_url_witness :
    extractBaseUrl [{ url := some "https://api.example.com/v1/" }] =
      ("https://api.example.com/v1", false) ∧
    resolveBaseUrl (some "https://override.example.com") "derived" =
      "https://override.example.com" := by
  have h := C9_amended_base_url "https://api.example.com/v1/" []
    "https://override.example.com" "derived"
  refine ⟨?_, h.2.2.2.2.2.1 (by decide)⟩
  rw [h.1]
  rfl

/-- C5 counterexample: with a parameter whose wire name is
`request_body`, the method's resolved argument names are distinct
(`request_body` and `_request_body`), but the manifest hard-codes the
literal `request_body` property key, clobbering the parameter's property
and leaving the resolved body argument name `_request_body` without a
matching manifest key. -/
theorem C5_cex_request_body_collision :
    methodArgNames [requestBodyNamedParam] true =
      ["request_body", "_request_body"] ∧
    (generate_tool_definition "upload" uploadOp
      (computeParamDefs [requestBodyNamedParam])).map
      (fun td => td.parameters.properties) =
      some [("request_body", { description := none, type := none })] := by
  exact ⟨rfl, rfl⟩

/-- C5 amended: the resolved argument names of a generated method
(parameters plus body argument) are pairwise distinct, and the manifest
property keys are the parameter argument names followed by the literal
`request_body` key when the operation declares a body — a key that is
reused, not freshly disambiguated, when a parameter already claimed it. -/
theorem C5_amended_unique_args (parameters : List Param) (fn : String)
    (op : Operation) (h : ¬ fn = "") :
    (methodArgNames parameters op.requestBody.isSome).Nodup ∧
    ∃ td, generate_tool_definition fn op (computeParamDefs parameters) =
        some td ∧
      td.parameters.properties.map Prod.fst =
        (if op.requestBody.isSome then
          (if "request_body" ∈
              (computeParamDefs parameters).map (fun p => p.arg_name)
           then (computeParamDefs parameters).map (fun p => p.arg_name)
           else (computeParamDefs parameters).map (fun p => p.arg_name)
             ++ ["request_body"])
         else (computeParamDefs parameters).map (fun p => p.arg_name)) := by
  refine ⟨methodArgNames_nodup parameters _, ?_⟩
  rw [generate_tool_definition, if_neg h]
  refine ⟨_, rfl, ?_⟩
  have hnd : ((computeParamDefs parameters).map (fun p => p.arg_name)).Nodup :=
    (buildParamDefs_arg_names parameters []).1
  have hprops : (computeParamDefs parameters).foldl
      (fun d pd => dictInsert pd.arg_name
        { description := some pd.description
          type := some (toolTypeOf pd.schemaType) } d) [] =
      (computeParamDefs parameters).map (fun pd => (pd.arg_name,
        ({ description := some pd.description
           type := some (toolTypeOf pd.schemaType) } : ToolProp))) := by
    rw [← List.foldl_map
      (fun pd => ((pd : ParamDef).arg_name,
        ({ description := some pd.description
           type := some (toolTypeOf pd.schemaType) } : ToolProp)))
      (fun d e => dictInsert e.1 e.2 d)]
    rw [foldl_dictInsert_append _ _ (by simp [dictKeys]) (by
      simpa [List.map_map, Function.comp] using hnd)]
    simp
  have hkeys : dictKeys ((computeParamDefs parameters).map (fun pd =>
      (pd.arg_name,
        ({ description := some pd.description
           type := some (toolTypeOf pd.schemaType) } : ToolProp)))) =
      (computeParamDefs parameters).map (fun p => p.arg_name) := by
    simp [dictKeys, List.map_map, Function.comp]
  cases hrb : op.requestBody with
  | none =>
    simp only [hrb, Option.isSome_none, if_neg, if_false, Bool.false_eq_true]
    rw [hprops]
    exact hkeys
  | some rb =>
    simp only [hrb, Option.isSome_some, if_pos]
    rw [hprops]
    have : (dictInsert "request_body"
        ({ description := none, type := none } : ToolProp)
        ((computeParamDefs parameters).map (fun pd => (pd.arg_name,
          ({ description := some pd.description
             type := some (toolTypeOf pd.schemaType) } : ToolProp))))).map
          Prod.fst =
        dictKeys (dictInsert "request_body"
          ({ description := none, type := none } : ToolProp)
          ((computeParamDefs parameters).map (fun pd => (pd.arg_name,
            ({ description := some pd.description
               type := some (toolTypeOf pd.schemaType) } : ToolProp))))) := rfl
    rw [this, dictKeys_dictInsert, hkeys]

/-- C5 amended witness at a concrete operation without a body. -/
theorem C5_amended_unique_args_witness :
    (methodArgNames [limitQueryParam] getUsersOp.requestBody.isSome).Nodup ∧
    ∃ td, generate_tool_definition "get_users" getUsersOp
        (computeParamDefs [limitQueryParam]) = some td ∧
      td.parameters.properties.map Prod.fst =
        (if getUsersOp.requestBody.isSome then
          (if "request_body" ∈
              (computeParamDefs [limitQueryParam]).map (fun p => p.arg_name)
           then (computeParamDefs [limitQueryParam]).map (fun p => p.arg_name)
           else (computeParamDefs [limitQueryParam]).map (fun p => p.arg_name)
             ++ ["request_body"])
         else (computeParamDefs [limitQueryParam]).map (fun p => p.arg_name)) :=
  C5_amended_unique_args [limitQueryParam] "get_users" getUsersOp (by decide)

/-- C8: the schema loader fails with `FileNotFoundError` when the path is
not a file; with the unsupported-type `ValueError` when the lower-cased
suffix is none of `.yaml`, `.yml`, `.json`; wraps a parser failure,
together with the source path, in a `ValueError`; and otherwise returns
the parsed tree. -/
theorem C8_load_schema_contract {α : Type}
    (yamlLoad jsonLoad : String → Except String α) (p : PyPath) :
    (p.isFile = false →
      load_schema yamlLoad jsonLoad p =
        .error (.fileNotFoundError ("Schema file not found: " ++ p.pathStr))) ∧
    (p.isFile = true → ¬ pyLower p.suffix = ".yaml" →
      ¬ pyLower p.suffix = ".yml" → ¬ pyLower p.suffix = ".json" →
      load_schema yamlLoad jsonLoad p =
        .error (.valueError ("Unsupported schema file type: "
          ++ pyLower p.suffix ++ ". Use .yaml or .json."))) ∧
    (p.isFile = true →
      (pyLower p.suffix = ".yaml" ∨ pyLower p.suffix = ".yml") →
      (∀ t, yamlLoad p.content = .ok t →
        load_schema yamlLoad jsonLoad p = .ok t) ∧
      (∀ e, yamlLoad p.content = .error e →
        load_schema yamlLoad jsonLoad p =
          .error (.valueError ("Error parsing schema file " ++ p.pathStr
            ++ ": " ++ e)))) ∧
    (p.isFile = true → pyLower p.suffix = ".json" →
      (∀ t, jsonLoad p.content = .ok t →
        load_schema yamlLoad jsonLoad p = .ok t) ∧
      (∀ e, jsonLoad p.content = .error e →
        load_schema yamlLoad jsonLoad p =
          .error (.valueError ("Error parsing schema file " ++ p.pathStr
            ++ ": " ++ e)))) := by
  refine ⟨?_, ?_, ?_, ?_⟩
  · intro hf
    rw [load_schema, hf]
    rfl
  · intro hf h1 h2 h3
    simp only [load_schema, hf, Bool.not_true, Bool.false_eq_true, if_false]
    rw [if_neg (not_or.mpr ⟨h1, h2⟩), if_neg h3]
  · intro hf hor
    constructor
    · intro t ht
      simp only [load_schema, hf, Bool.not_true, Bool.false_eq_true, if_false]
      rw [if_pos hor, ht]
    · intro e he
      simp only [load_schema, hf, Bool.not_true, Bool.false_eq_true, if_false]
      rw [if_pos hor, he]
  · intro hf hs
    have hnyaml : ¬ (pyLower p.suffix = ".yaml" ∨ pyLower p.suffix = ".yml") := by
      rw [hs]
      decide
    constructor
    · intro t ht
      simp only [load_schema, hf, Bool.not_true, Bool.false_eq_true, if_false]
      rw [if_neg hnyaml, if_pos hs, ht]
    · intro e he
      simp only [load_schema, hf, Bool.not_true, Bool.false_eq_true, if_false]
      rw [if_neg hnyaml, if_pos hs, he]

/-- C8 witness at concrete paths and parsers: an uppercase `.TXT` suffix
is unsupported, and a failing YAML parse is wrapped with the path. -/
theorem C8_load_schema_contract_witness :
    load_schema (fun _ => Except.ok 0) (fun _ => Except.ok 0)
      { pathStr := "spec.TXT", suffix := ".TXT", isFile := true,
        content := "x" } =
      .error (.valueError "Unsupported schema file type: .txt. Use .yaml or .json.") ∧
    load_schema (fun _ => Except.error "bad") (fun _ => Except.ok 0)
      { pathStr := "openapi.yaml", suffix := ".yaml", isFile := true,
        content := "x" } =
      .error (.valueError "Error parsing schema file openapi.yaml: bad") := by
  constructor
  · have h := (C8_load_schema_contract (fun _ => Except.ok 0)
      (fun _ => Except.ok 0)
      { pathStr := "spec.TXT", suffix := ".TXT", isFile := true,
        content := "x" }).2.1 rfl (by decide) (by decide) (by decide)
    rw [h]
    rfl
  · exact ((C8_load_schema_contract (fun _ => Except.error "bad")
      (fun _ => Except.ok 0)
      { pathStr := "openapi.yaml", suffix := ".yaml", isFile := true,
        content := "x" }).2.2.1 rfl (Or.inl (by decide))).2 "bad" rfl

/-- C10: merging keeps every path-level parameter's position, replacing
its value by the overriding operation-level parameter with the same
`(name, in)` identity when one exists, and appends operation-only
parameters afterwards in their declaration order; the generated method's
arguments then follow exactly this merged order. -/
theorem C10_merge_override_order (pl ol : List Param)
    (hpl : ((pl.filter paramValid).map paramKey).Nodup)
    (hol : ((ol.filter paramValid).map paramKey).Nodup) :
    mergeParams pl ol =
      (pl.filter paramValid).map (fun p =>
        (((ol.filter paramValid).find?
          (fun q => decide (paramKey q = paramKey p))).getD p)) ++
      (ol.filter paramValid).filter
        (fun q => decide (paramKey q ∉ (pl.filter paramValid).map paramKey)) ∧
    (computeParamDefs (mergeParams pl ol)).map (fun d => d.name) =
      (mergeParams pl ol).map (fun p => p.name.getD "") := by
  constructor
  · rw [mergeParams]
    have hm1 : (pl.filter paramValid).foldl
        (fun d p => dictInsert (paramKey p) p d) [] =
        (pl.filter paramValid).map (fun p => (paramKey p, p)) := by
      rw [foldl_dictInsert_merge paramKey (pl.filter paramValid) []
        (by simp [dictKeys]) hpl]
      simp [dictKeys]
    have hkeys1 : dictKeys ((pl.filter paramValid).map (fun p => (paramKey p, p)))
        = (pl.filter paramValid).map paramKey := by
      simp [dictKeys, List.map_map]
    simp only [hm1]
    rw [foldl_dictInsert_merge paramKey (ol.filter paramValid)
      ((pl.filter paramValid).map (fun p => (paramKey p, p)))
      (by rw [hkeys1]; exact hpl) hol]
    rw [List.map_append]
    congr 1
    · rw [List.map_map, List.map_map]
      apply List.map_congr_left
      intro p _
      simp only [Function.comp]
      cases hf : (ol.filter paramValid).find?
          (fun q => decide (paramKey q = paramKey p)) with
      | none => simp [hf]
      | some q => simp [hf]
    · rw [List.map_map]
      simp only [hkeys1]
      have hid : (Prod.snd ∘ fun (q : Param) => (paramKey q, q)) = id := rfl
      rw [hid, List.map_id]
  · rw [computeParamDefs]
    exact buildParamDefs_names (mergeParams pl ol) []
      (mergeParams_mem_valid pl ol)

/-- C10 witness at a concrete path-level and operation-level parameter
pair: the overriding `user_id` keeps position one, the path-only header
parameter keeps position two, and the operation-only query parameter
follows. -/
theorem C10_merge_override_order_witness :
    mergeParams [userIdPathParam, tenantHeaderParam]
      [userIdRequiredParam, limitQueryParam] =
      [userIdRequiredParam, tenantHeaderParam, limitQueryParam] ∧
    (computeParamDefs (mergeParams [userIdPathParam, tenantHeaderParam]
      [userIdRequiredParam, limitQueryParam])).map (fun d => d.name) =
      ["user_id", "tenant_id", "limit"] := by
  have h := C10_merge_override_order [userIdPathParam, tenantHeaderParam]
    [userIdRequiredParam, limitQueryParam] (by decide) (by decide)
  constructor
  · rw [h.1]
    rfl
  · rw [h.2]
    rfl

end Agentr
